import Mathlib

/-!
# Verification of the news-aggregator dedup & delivery-pacing core

Shallow embedding of the repository's core logic:

* `storage/db.py` — `normalize_title`, `Database.article_exists`,
  `Database.find_similar`, `Database.save_article`, `Database.mark_sent`,
  `Database.get_unsent_articles`, `Database.cleanup_old`.
* `output/telegram.py` — `TelegramBot._should_skip`, `TelegramBot.send_article`,
  `TelegramBot._send_fallback`, `TelegramBot.send_batch`.
* `__main__.py` — the per-article body of `NewsAggregator.send_pending`.

Modelling conventions:
* The SQLite table is a `List Row` in rowid (insertion) order; SQL filters become
  `List.filter`, the similarity scan becomes `List.findSome?` in scan order.
* Instants are seconds since the epoch as `Int`; `timedelta(hours=h)` is
  `h * 3600`, `timedelta(days=d)` is `d * 86400`.
* The `created_at` column holds the TEXT that SQLite's `CURRENT_TIMESTAMP`
  default produces — `"YYYY-MM-DD HH:MM:SS"` rendered from the *UTC* clock —
  while `find_similar` and `cleanup_old` bind
  `datetime.now().isoformat()` — `"YYYY-MM-DDTHH:MM:SS[.ffffff]"` rendered
  from the *local* clock.  Both sides keep TEXT affinity, so SQLite's BINARY
  collation compares them byte-wise; `textLt` models that comparison (on this
  ASCII alphabet, code-point order is byte order).  `sqliteTimestamp` and
  `pyIsoformat` render an instant in the two formats (Hinnant's civil-calendar
  algorithm); `pyIsoformat` is rendered at seconds resolution because a
  microsecond suffix can never decide a comparison in this program: a stored
  `created_at` and a bound cutoff always differ at or before the separator
  byte (`' '` vs `'T'` at offset 10 when the dates agree, earlier otherwise).
  `save_article` therefore takes the UTC instant `now` of the insert plus the
  offset `tz` of the local clock, so `datetime.now()` reads `now + tz`.
* The `timestamp` column, by contrast, is written *and* read back by the
  program itself in one format (`article.timestamp.isoformat()` /
  `datetime.fromisoformat`), so it is modelled as an `Option Int` instant;
  `ORDER BY timestamp DESC` over one uniform rendering agrees with instant
  order.
* `rapidfuzz.fuzz.token_sort_ratio` returns a float `100 * (1 - dist/total)`;
  it is modelled as the floor integer score `(100 * (total - dist)) / total`,
  which decides `score >= 75` identically (for an integer threshold `t`,
  `x >= t ↔ ⌊x⌋ >= t`).  `dist` is the Indel distance
  `|s1| + |s2| - 2 * lcs(s1, s2)`.
* Python `str` operations are modelled over `List Char`: `str.lower()` is
  ASCII `Char.toLower` (titles relevant to the claims are ASCII), `\w` is
  `[A-Za-z0-9_]`, `str.split()` splits on whitespace runs dropping empties.
* The adaptive delay of `send_batch` is an exact rational (`ℚ`); the floats
  `0.9`, `1.5`, `1.0`, `5.0` are the exact rationals `9/10`, `3/2`, `1`, `5`
  (the claimed bound and monotonicity properties are rounding-robust).
* `Article.id` is `hashlib.md5(url).hexdigest()` — a deterministic fingerprint
  of the url; it is modelled as the url itself (a deterministic injective
  fingerprint), since no claim depends on the digest's value.
* `asyncio.sleep` calls are modelled as emitted events (`SleepEvent`, `Wait`);
  the outcome of each external `bot.send_message` call is an input
  (`AttemptOutcome`, success list), since the network is outside the program.
-/

namespace NewsAgg

/-! ## Character/word utilities (Python `str` operations over `List Char`) -/

/-- Python regex `\w` (ASCII fragment): letters, digits and the underscore. -/
def isWordChar (c : Char) : Bool :=
  c.isAlphanum || c = '_'

/-- Split a character list on whitespace runs, dropping empties — Python
`str.split()` with no separator.  `acc` holds the current word, reversed. -/
def wordsAux : List Char → List Char → List (List Char)
  | [], acc => if acc = [] then [] else [acc.reverse]
  | c :: cs, acc =>
    if c.isWhitespace then
      if acc = [] then wordsAux cs [] else acc.reverse :: wordsAux cs []
    else wordsAux cs (c :: acc)

/-- Python `str.split()`: the whitespace-delimited words of a string. -/
def wordsOf (l : List Char) : List (List Char) :=
  wordsAux l []

/-- Join words with single spaces — Python `" ".join(words)`. -/
def joinSpace : List (List Char) → List Char
  | [] => []
  | [w] => w
  | w :: ws => w ++ ' ' :: joinSpace ws

/-- Python `str.strip()`: drop leading and trailing whitespace. -/
def pyStrip (l : List Char) : List Char :=
  ((l.dropWhile Char.isWhitespace).reverse.dropWhile Char.isWhitespace).reverse

/-- Python `str.split(",")`: split on every comma, keeping empty pieces. -/
def splitComma : List Char → List (List Char)
  | [] => [[]]
  | c :: cs =>
    if c = ',' then [] :: splitComma cs
    else
      match splitComma cs with
      | w :: ws => (c :: w) :: ws
      | [] => [[c]]

/-- Substring test: does `pat` occur at the head of `text`? -/
def headMatch : List Char → List Char → Bool
  | _, [] => true
  | [], _ :: _ => false
  | c :: cs, p :: ps => c = p && headMatch cs ps

/-- Substring containment (`pat in text` / `re.search` on a literal pattern). -/
def containsSub : List Char → List Char → Bool
  | [], pat => pat.isEmpty
  | c :: cs, pat => headMatch (c :: cs) pat || containsSub cs pat

/-! ## `normalize_title` (storage/db.py lines 16-22) -/

/-- The fixed stop-word set of `normalize_title`. -/
def stopwords : List String :=
  ["the", "a", "an", "in", "on", "at", "to", "for", "of", "and",
   "is", "are", "was", "were"]

/-- `normalize_title` (storage/db.py): lowercase, strip all characters that are
neither `\w` nor whitespace, collapse whitespace and trim, drop stop-words,
join with single spaces.  (The regex collapse `\s+ -> " "` followed by
`str.strip()` and `str.split()` yields exactly the whitespace-delimited words
of the stripped text, so the collapse step is folded into `wordsOf`.) -/
def normalize_title (title : String) : String :=
  let lowered := title.data.map Char.toLower
  let stripped := lowered.filter (fun c => isWordChar c || c.isWhitespace)
  let words := wordsOf stripped
  let kept := words.filter (fun w => ¬ stopwords.contains (String.mk w))
  String.mk (joinSpace kept)

/-! ## `fuzz.token_sort_ratio` (rapidfuzz) -/

/-- One row of the longest-common-subsequence DP table.  `prev` is the previous
row (length `|bs| + 1`), `left` the entry just filled in the current row. -/
def lcsRowGo (c : Char) : List Char → List Nat → Nat → List Nat
  | [], _, _ => []
  | b :: bs, p :: prev, left =>
    let cur := if c = b then p + 1 else max left (prev.headD 0)
    cur :: lcsRowGo c bs prev cur
  | _ :: _, [], _ => []

/-- Length of the longest common subsequence (dynamic programming). -/
def lcsLen (A B : List Char) : Nat :=
  let init := List.replicate (B.length + 1) 0
  (A.foldl (fun row c => 0 :: lcsRowGo c B row 0) init).getLastD 0

/-- Indel distance: Levenshtein restricted to insertions and deletions. -/
def indelDist (A B : List Char) : Nat :=
  A.length + B.length - 2 * lcsLen A B

/-- `fuzz.ratio`: normalized Indel similarity scaled to 0..100 (floor integer
score; two empty strings score 100). -/
def ratioScore (A B : List Char) : Nat :=
  let total := A.length + B.length
  if total = 0 then 100 else (100 * (total - indelDist A B)) / total

/-- Lexicographic comparison of words by code point — Python `str` order. -/
def charListLe : List Char → List Char → Bool
  | [], _ => true
  | _ :: _, [] => false
  | a :: as, b :: bs =>
    if a.val < b.val then true
    else if b.val < a.val then false
    else charListLe as bs

/-- Insert a word into a sorted word list (insertion sort step). -/
def insertWord (w : List Char) : List (List Char) → List (List Char)
  | [] => [w]
  | x :: xs => if charListLe w x then w :: x :: xs else x :: insertWord w xs

/-- Python `sorted(words)`. -/
def sortWords : List (List Char) → List (List Char)
  | [] => []
  | w :: ws => insertWord w (sortWords ws)

/-- `" ".join(sorted(s.split()))` — the token-sorted form used by
`token_sort_ratio`. -/
def sortedJoin (s : String) : List Char :=
  joinSpace (sortWords (wordsOf s.data))

/-- `fuzz.token_sort_ratio`: `fuzz.ratio` over the token-sorted strings. -/
def token_sort_ratio (s1 s2 : String) : Nat :=
  ratioScore (sortedJoin s1) (sortedJoin s2)

/-! ## Timestamp rendering and SQLite TEXT comparison -/

/-- Strict lexicographic comparison of character lists by code point. -/
def charListLt : List Char → List Char → Bool
  | [], [] => false
  | [], _ :: _ => true
  | _ :: _, [] => false
  | a :: as, b :: bs =>
    if a.val < b.val then true
    else if b.val < a.val then false
    else charListLt as bs

/-- SQLite's BINARY collation on TEXT values: byte-wise (memcmp) comparison,
which on the ASCII timestamp alphabet used here coincides with code-point
order. -/
def textLt (s1 s2 : String) : Bool :=
  charListLt s1.data s2.data

/-- Civil date (year, month, day) of a day count relative to 1970-01-01
(Hinnant's `civil_from_days` algorithm, floor division throughout). -/
def civilFromDays (z0 : Int) : Int × Int × Int :=
  let z := z0 + 719468
  let era := Int.fdiv z 146097
  let doe := z - era * 146097
  let yoe := Int.fdiv (doe - Int.fdiv doe 1460 + Int.fdiv doe 36524 - Int.fdiv doe 146096) 365
  let y := yoe + era * 400
  let doy := doe - (365 * yoe + Int.fdiv yoe 4 - Int.fdiv yoe 100)
  let mp := Int.fdiv (5 * doy + 2) 153
  let d := doy - Int.fdiv (153 * mp + 2) 5 + 1
  let m := mp + (if mp < 10 then 3 else -9)
  (if m ≤ 2 then y + 1 else y, m, d)

/-- Two-digit zero-padded decimal rendering (for month, day, time fields). -/
def pad2 (n : Int) : String :=
  let m := n.toNat
  String.mk [Char.ofNat (48 + m / 10 % 10), Char.ofNat (48 + m % 10)]

/-- Four-digit zero-padded decimal rendering (for years 0-9999). -/
def pad4 (n : Int) : String :=
  let m := n.toNat
  String.mk [Char.ofNat (48 + m / 1000 % 10), Char.ofNat (48 + m / 100 % 10),
    Char.ofNat (48 + m / 10 % 10), Char.ofNat (48 + m % 10)]

/-- Render the instant `t` (seconds since the epoch) as
`YYYY-MM-DD<sep>HH:MM:SS`. -/
def renderStamp (t : Int) (sep : Char) : String :=
  let days := Int.fdiv t 86400
  let sod := (t - days * 86400).toNat
  let ymd := civilFromDays days
  pad4 ymd.1 ++ "-" ++ pad2 ymd.2.1 ++ "-" ++ pad2 ymd.2.2 ++ String.mk [sep] ++
    pad2 (Int.ofNat (sod / 3600)) ++ ":" ++ pad2 (Int.ofNat (sod % 3600 / 60)) ++ ":" ++
    pad2 (Int.ofNat (sod % 60))

/-- The TEXT filled into `created_at` by SQLite's `DEFAULT CURRENT_TIMESTAMP`:
`"YYYY-MM-DD HH:MM:SS"` of the UTC clock. -/
def sqliteTimestamp (t : Int) : String :=
  renderStamp t ' '

/-- The TEXT bound for a cutoff: `datetime.isoformat()`,
`"YYYY-MM-DDTHH:MM:SS"` (seconds resolution; the `.ffffff` microsecond suffix
of `datetime.now()` can never decide a comparison in this program, see the
header). -/
def pyIsoformat (t : Int) : String :=
  renderStamp t 'T'

/-! ## Data model (scrapers/base.py `Article`, the `articles` table) -/

/-- `Article` (scrapers/base.py): the normalized record produced by adapters. -/
structure Article where
  title : String
  url : String
  source : String
  timestamp : Option Int := none
  content : Option String := none
  other_sources : List String := []
deriving DecidableEq, Repr

/-- `Article.id`: `md5(url).hexdigest()` — a deterministic fingerprint of the
url, modelled as the url itself. -/
def Article.id (a : Article) : String := a.url

/-- One row of the `articles` table (storage/db.py `_init_db`). -/
structure Row where
  id : String
  title : String
  normalized_title : Option String
  url : String
  source : String
  timestamp : Option Int
  content : Option String
  created_at : String
  sent : Bool
  duplicate_of : Option String
  other_sources : Option String
deriving DecidableEq, Repr

/-! ## Store operations (storage/db.py `Database`) -/

/-- `Database.article_exists`: exact-id lookup. -/
def article_exists (db : List Row) (a : Article) : Bool :=
  db.any (fun r => r.id == a.id)

/-- `row["normalized_title"] or normalize_title(row["title"])` — Python `or`
falls back when the stored value is NULL *or* the empty string. -/
def rowNormalized (r : Row) : String :=
  match r.normalized_title with
  | none => normalize_title r.title
  | some s => if s = "" then normalize_title r.title else s

/-- The similarity threshold (storage/db.py line 13). -/
def SIMILARITY_THRESHOLD : Nat := 75

/-- `Database.find_similar`: scan rows satisfying the SQL filter
`created_at > ? AND duplicate_of IS NULL`, in insertion order, for the first
one whose token-sort similarity to the candidate's normalized title reaches
the threshold; return its id and the score.  `now` is the local-clock reading
(`datetime.now()`); the bound parameter is `(now - timedelta(hours)).isoformat()`
and SQLite compares it byte-wise (TEXT) against the stored `CURRENT_TIMESTAMP`
text. -/
def find_similar (db : List Row) (a : Article) (now : Int)
    (hours : Int := 24) : Option (String × Nat) :=
  let normalized := normalize_title a.title
  let cutoff := pyIsoformat (now - hours * 3600)
  let rows := db.filter (fun r => textLt cutoff r.created_at && r.duplicate_of.isNone)
  rows.findSome? (fun r =>
    let similarity := token_sort_ratio normalized (rowNormalized r)
    if SIMILARITY_THRESHOLD ≤ similarity then some (r.id, similarity) else none)

/-- The row inserted for a detected near-duplicate: `sent = TRUE`,
`duplicate_of = original_id`, `other_sources` not set. -/
def dupRow (a : Article) (now : Int) (original_id : String) : Row :=
  { id := a.id, title := a.title, normalized_title := some (normalize_title a.title),
    url := a.url, source := a.source, timestamp := a.timestamp, content := a.content,
    created_at := sqliteTimestamp now, sent := true, duplicate_of := some original_id,
    other_sources := none }

/-- The row inserted for a fresh canonical record: `sent` and `duplicate_of`
keep their defaults (`FALSE`, NULL). -/
def freshRow (a : Article) (now : Int) : Row :=
  { id := a.id, title := a.title, normalized_title := some (normalize_title a.title),
    url := a.url, source := a.source, timestamp := a.timestamp, content := a.content,
    created_at := sqliteTimestamp now, sent := false, duplicate_of := none,
    other_sources := none }

/-- `new_sources = f"{existing},{src}" if existing else src` — plain append,
with no check against `src` already being listed. -/
def appendSourceStr (existing src : String) : String :=
  if existing = "" then src else existing ++ "," ++ src

/-- `Database.save_article`: no-op on an existing id; otherwise insert as a
duplicate link (and append the source name to the canonical row's
`other_sources`) or as a fresh canonical row.  Returns `true` iff no
near-duplicate was found.  `now` is the UTC instant the insert's
`CURRENT_TIMESTAMP` renders; `tz` is the offset of the local clock, so the
simultaneous `datetime.now()` inside `find_similar` reads `now + tz`. -/
def save_article (db : List Row) (a : Article) (now : Int) (tz : Int) : List Row × Bool :=
  if article_exists db a then (db, false)
  else
    match find_similar db a (now + tz) with
    | some (original_id, _similarity) =>
      let db1 := db ++ [dupRow a now original_id]
      let existing_sources :=
        ((db1.find? (fun r => r.id == original_id)).bind Row.other_sources).getD ""
      let new_sources := appendSourceStr existing_sources a.source
      let db2 := db1.map (fun r =>
        if r.id = original_id then { r with other_sources := some new_sources } else r)
      (db2, false)
    | none => (db ++ [freshRow a now], true)

/-- `Database.mark_sent`: `UPDATE articles SET sent = TRUE WHERE id = ?`. -/
def mark_sent (db : List Row) (a : Article) : List Row :=
  db.map (fun r => if r.id = a.id then { r with sent := true } else r)

/-- The rows selected by the unsent query:
`sent = FALSE AND duplicate_of IS NULL`. -/
def unsent_rows (db : List Row) : List Row :=
  db.filter (fun r => !r.sent && r.duplicate_of.isNone)

/-- `ORDER BY timestamp DESC` as a Boolean relation: later timestamps first;
SQLite treats NULL as smaller than every value, so NULL-timestamp rows sort
last under DESC. -/
def tsLeB (t1 t2 : Option Int) : Bool :=
  match t1, t2 with
  | none, none => true
  | none, some _ => false
  | some _, none => true
  | some x, some y => y ≤ x

/-- `ORDER BY timestamp DESC` as a relation on rows. -/
def tsRel (r1 r2 : Row) : Prop :=
  tsLeB r1.timestamp r2.timestamp = true

instance : DecidableRel tsRel := fun r1 r2 =>
  inferInstanceAs (Decidable (tsLeB r1.timestamp r2.timestamp = true))

/-- `other_sources.split(",")` with `strip()` and empty-piece filtering
(storage/db.py line 150); NULL and `""` give the empty list. -/
def parse_other_sources (os : Option String) : List String :=
  match os with
  | none => []
  | some s =>
    if s = "" then []
    else ((splitComma s.data).map (fun w => String.mk (pyStrip w))).filter (· ≠ "")

/-- The `Article` rebuilt from a stored row by `get_unsent_articles`. -/
def rowToArticle (r : Row) : Article :=
  { title := r.title, url := r.url, source := r.source, timestamp := r.timestamp,
    content := r.content, other_sources := parse_other_sources r.other_sources }

/-- `Database.get_unsent_articles`: the unsent canonical rows ordered by
`timestamp DESC` (NULLs last), each projected back to an `Article` with
`other_sources` parsed from the stored string. -/
def get_unsent_articles (db : List Row) : List Article :=
  (List.insertionSort tsRel (unsent_rows db)).map rowToArticle

/-- `Database.cleanup_old`: `DELETE FROM articles WHERE created_at < ?` with
the bound parameter `(now - timedelta(days)).isoformat()` of the local clock,
compared byte-wise against the stored `CURRENT_TIMESTAMP` text. -/
def cleanup_old (db : List Row) (now : Int) (days : Int) : List Row :=
  db.filter (fun r => !textLt r.created_at (pyIsoformat (now - days * 86400)))

/-! ## Delivery pacer (output/telegram.py) -/

/-- `MIN_DELAY = 1.0` (seconds). -/
def MIN_DELAY : ℚ := 1

/-- `MAX_DELAY = 5.0` (seconds). -/
def MAX_DELAY : ℚ := 5

/-- `BATCH_SIZE = 10`. -/
def BATCH_SIZE : Nat := 10

/-- The adaptive-delay update of `send_batch`: ease off on success
(`max(MIN_DELAY, delay * 0.9)`), back off on failure
(`min(MAX_DELAY, delay * 1.5)`). -/
def delayStep (delay : ℚ) (success : Bool) : ℚ :=
  if success then max MIN_DELAY (delay * 0.9) else min MAX_DELAY (delay * 1.5)

/-- The delay value after processing a list of per-record outcomes, starting
from the batch-initial `MIN_DELAY`. -/
def delayAfter (outcomes : List Bool) : ℚ :=
  outcomes.foldl delayStep MIN_DELAY

/-- A sleep performed between records of `send_batch`: the hard batch pause
(`MAX_DELAY`) or an adaptive sleep of the current delay. -/
inductive SleepEvent where
  | batchPause : SleepEvent
  | adaptive : ℚ → SleepEvent

/-- Is this sleep the hard `MAX_DELAY` batch pause? -/
def SleepEvent.isPause : SleepEvent → Bool
  | .batchPause => true
  | .adaptive _ => false

/-- The loop body of `send_batch`.  `processed` is the loop index `i` of the
record being handled, `sent` the running success count.  After every record
except the last (`i < len - 1`), a sleep is emitted: the batch pause when
`(i + 1) % BATCH_SIZE == 0`, otherwise the (just-updated) adaptive delay. -/
def send_batch_loop : List Bool → ℚ → Nat → Nat → Nat × List SleepEvent
  | [], _, _, sent => (sent, [])
  | success :: rest, delay, processed, sent =>
    let sent' := if success then sent + 1 else sent
    let delay' := delayStep delay success
    let next := send_batch_loop rest delay' (processed + 1) sent'
    if rest.isEmpty then next
    else
      if (processed + 1) % BATCH_SIZE = 0 then (next.1, SleepEvent.batchPause :: next.2)
      else (next.1, SleepEvent.adaptive delay' :: next.2)

/-- `TelegramBot.send_batch`, abstracted over the per-record delivery outcomes:
returns the sent count and the sequence of sleeps performed. -/
def send_batch (outcomes : List Bool) : Nat × List SleepEvent :=
  send_batch_loop outcomes MIN_DELAY 0 0

/-! ## Per-record delivery (`send_article`, `_send_fallback`, `_should_skip`) -/

/-- `SKIP_PATTERNS` (output/telegram.py lines 72-78); each is a literal
substring (the regex `t\.me/` escapes its dot). -/
def SKIP_PATTERNS : List String :=
  ["t.me/", "telegram", "підписуйся", "підписатися", "наш канал"]

/-- `TelegramBot._should_skip`: does any pattern occur in
`f"{title} {url}".lower()`? -/
def should_skip (a : Article) : Bool :=
  let text := (a.title.data ++ ' ' :: a.url.data).map Char.toLower
  SKIP_PATTERNS.any (fun p => containsSub text p.data)

/-- The outcome of one `bot.send_message` call inside the retry loop. -/
inductive AttemptOutcome where
  | success : AttemptOutcome
  | retryAfter : Nat → AttemptOutcome
  | tgError : AttemptOutcome
deriving DecidableEq, Repr

/-- A sleep performed inside `send_article`'s retry loop. -/
inductive Wait where
  | retryWait : Nat → Wait
  | backoff : Nat → Wait
deriving DecidableEq, Repr

/-- Duration in seconds of a retry-loop sleep: the flood-control wait is
`retry_after + 1`, the exponential backoff is `2 ** attempt`. -/
def Wait.seconds : Wait → Nat
  | .retryWait n => n + 1
  | .backoff k => 2 ^ k

/-- The observable result of `send_article`: return value, sleeps performed,
number of primary delivery attempts made, and whether the degraded fallback
was attempted. -/
structure SendTrace where
  ok : Bool
  waits : List Wait
  attempts : Nat
  fallbackAttempted : Bool
deriving DecidableEq, Repr

/-- The retry loop of `send_article` (`for attempt in range(retries)`).
`remaining` is the number of loop iterations left (`retries - attempt`),
`attempt` the current 0-based index.  `RetryAfter` sleeps `retry_after + 1`
and consumes an attempt; `TelegramError` on a non-final attempt sleeps
`2 ** attempt`; `TelegramError` on the final attempt returns the fallback's
result; falling out of the loop returns `False` with no fallback. -/
def attemptLoop (out : Nat → AttemptOutcome) (fallbackOk : Bool) :
    Nat → Nat → SendTrace
  | 0, attempt => { ok := false, waits := [], attempts := attempt, fallbackAttempted := false }
  | remaining + 1, attempt =>
    match out attempt with
    | .success => { ok := true, waits := [], attempts := attempt + 1, fallbackAttempted := false }
    | .retryAfter n =>
      let rest := attemptLoop out fallbackOk remaining (attempt + 1)
      { rest with waits := Wait.retryWait n :: rest.waits }
    | .tgError =>
      if remaining = 0 then
        { ok := fallbackOk, waits := [], attempts := attempt + 1, fallbackAttempted := true }
      else
        let rest := attemptLoop out fallbackOk remaining (attempt + 1)
        { rest with waits := Wait.backoff attempt :: rest.waits }

/-- `TelegramBot.send_article`: fail fast when no channel id is configured;
return `True` without any delivery attempt for skip-pattern articles;
otherwise run the retry loop. -/
def send_article (channel_id : String) (a : Article)
    (out : Nat → AttemptOutcome) (fallbackOk : Bool) (retries : Nat := 3) : SendTrace :=
  if channel_id = "" then
    { ok := false, waits := [], attempts := 0, fallbackAttempted := false }
  else if should_skip a then
    { ok := true, waits := [], attempts := 0, fallbackAttempted := false }
  else attemptLoop out fallbackOk retries 0

/-- The per-article body of `NewsAggregator.send_pending`: mark the record
sent and count it iff `send_article` returned `True`. -/
def send_pending_step (db : List Row) (a : Article) (ok : Bool) (sent : Nat) :
    List Row × Nat :=
  if ok then (mark_sent db a, sent + 1) else (db, sent)

/-! ## Lemmas: characters, words and joins -/

lemma ule_iff (a b : UInt32) : (a ≤ b) ↔ a.toNat ≤ b.toNat := by
  rw [UInt32.le_def, BitVec.le_def]; rfl

lemma isUpper_iff (c : Char) : c.isUpper = true ↔ (65 ≤ c.toNat ∧ c.toNat ≤ 90) := by
  simp only [Char.isUpper, Bool.and_eq_true, decide_eq_true_eq, ge_iff_le]
  constructor
  · rintro ⟨h1, h2⟩
    exact ⟨(ule_iff 65 c.val).mp h1, (ule_iff c.val 90).mp h2⟩
  · rintro ⟨h1, h2⟩
    exact ⟨(ule_iff 65 c.val).mpr h1, (ule_iff c.val 90).mpr h2⟩

lemma toLower_isUpper (c : Char) : (Char.toLower c).isUpper = false := by
  simp only [Char.toLower]
  split
  case isTrue h =>
    obtain ⟨h1, h2⟩ := h
    set n := c.toNat with hn
    interval_cases n <;> decide
  case isFalse h =>
    rw [Bool.eq_false_iff]
    intro hu
    rw [isUpper_iff] at hu
    exact h ⟨hu.1, hu.2⟩

lemma wordsAux_sound (l : List Char) :
    ∀ acc, (∀ c ∈ acc, c.isWhitespace = false) →
    ∀ w ∈ wordsAux l acc, w ≠ [] ∧ ∀ c ∈ w, c.isWhitespace = false ∧ (c ∈ acc ∨ c ∈ l) := by
  induction l with
  | nil =>
    intro acc hacc w hw
    simp only [wordsAux] at hw
    split at hw
    · simp at hw
    case isFalse hne =>
      simp only [List.mem_singleton] at hw
      subst hw
      refine ⟨by simpa using hne, ?_⟩
      intro c hc
      rw [List.mem_reverse] at hc
      exact ⟨hacc c hc, Or.inl hc⟩
  | cons a l ih =>
    intro acc hacc w hw
    simp only [wordsAux] at hw
    split at hw
    case isTrue hws =>
      split at hw
      case isTrue hemp =>
        obtain ⟨hne, hcs⟩ := ih [] (by simp) w hw
        refine ⟨hne, fun c hc' => ⟨(hcs c hc').1, Or.inr ?_⟩⟩
        rcases (hcs c hc').2 with h | h
        · simp at h
        · exact List.mem_cons_of_mem a h
      case isFalse hemp =>
        rcases List.mem_cons.mp hw with h | h
        · subst h
          refine ⟨by simpa using hemp, ?_⟩
          intro c hc'
          rw [List.mem_reverse] at hc'
          exact ⟨hacc c hc', Or.inl hc'⟩
        · obtain ⟨hne', hcs⟩ := ih [] (by simp) w h
          refine ⟨hne', fun c hc' => ⟨(hcs c hc').1, Or.inr ?_⟩⟩
          rcases (hcs c hc').2 with h' | h'
          · simp at h'
          · exact List.mem_cons_of_mem a h'
    case isFalse hws =>
      obtain ⟨hne, hcs⟩ := ih (a :: acc) (by
        intro c hc
        rcases List.mem_cons.mp hc with h | h
        · subst h; simpa using hws
        · exact hacc c h) w hw
      refine ⟨hne, fun c hc' => ⟨(hcs c hc').1, ?_⟩⟩
      rcases (hcs c hc').2 with h | h
      · rcases List.mem_cons.mp h with h' | h'
        · exact Or.inr (by rw [h']; exact List.mem_cons_self _ _)
        · exact Or.inl h'
      · exact Or.inr (List.mem_cons_of_mem a h)

lemma wordsOf_sound (l : List Char) :
    ∀ w ∈ wordsOf l, w ≠ [] ∧ ∀ c ∈ w, c.isWhitespace = false ∧ c ∈ l := by
  intro w hw
  obtain ⟨hne, hcs⟩ := wordsAux_sound l [] (by simp) w hw
  refine ⟨hne, fun c hc => ⟨(hcs c hc).1, ?_⟩⟩
  rcases (hcs c hc).2 with h | h
  · simp at h
  · exact h

lemma wordsAux_no_ws (w : List Char) :
    ∀ acc, (∀ c ∈ w, c.isWhitespace = false) →
    wordsAux w acc = if acc.reverse ++ w = [] then [] else [acc.reverse ++ w] := by
  induction w with
  | nil =>
    intro acc _
    simp only [wordsAux, List.append_nil]
    by_cases h : acc = []
    · subst h; simp
    · rw [if_neg h, if_neg (by simpa using h)]
  | cons a as ih =>
    intro acc hw
    have ha : a.isWhitespace = false := hw a (List.mem_cons_self a as)
    simp only [wordsAux, ha]
    rw [if_neg (by simp)]
    rw [ih (a :: acc) (fun c hc => hw c (List.mem_cons_of_mem a hc))]
    rw [if_neg (by simp)]
    simp

lemma wordsAux_word_break (w : List Char) (rest : List Char) :
    ∀ acc, (∀ c ∈ w, c.isWhitespace = false) →
    wordsAux (w ++ ' ' :: rest) acc =
      (if acc.reverse ++ w = [] then [] else [acc.reverse ++ w]) ++ wordsAux rest [] := by
  induction w with
  | nil =>
    intro acc _
    simp only [List.nil_append, wordsAux, List.append_nil]
    rw [if_pos (by decide)]
    by_cases h : acc = []
    · subst h; simp
    · rw [if_neg h, if_neg (by simpa using h)]
      simp
  | cons a as ih =>
    intro acc hw
    have ha : a.isWhitespace = false := hw a (List.mem_cons_self a as)
    simp only [List.cons_append, wordsAux, ha]
    rw [if_neg (by simp)]
    simp only [List.append_eq]
    rw [ih (a :: acc) (fun c hc => hw c (List.mem_cons_of_mem a hc))]
    rw [if_neg (by simp), if_neg (by simp)]
    simp

lemma wordsOf_joinSpace (ws : List (List Char))
    (h : ∀ w ∈ ws, w ≠ [] ∧ ∀ c ∈ w, c.isWhitespace = false) :
    wordsOf (joinSpace ws) = ws := by
  induction ws with
  | nil => rfl
  | cons w ws ih =>
    obtain ⟨hne, hnw⟩ := h w (List.mem_cons_self w ws)
    cases ws with
    | nil =>
      show wordsAux (joinSpace [w]) [] = [w]
      simp only [joinSpace]
      rw [wordsAux_no_ws w [] hnw]
      simp [hne]
    | cons w' ws' =>
      show wordsAux (joinSpace (w :: w' :: ws')) [] = w :: w' :: ws'
      rw [show joinSpace (w :: w' :: ws') = w ++ ' ' :: joinSpace (w' :: ws') from rfl]
      rw [wordsAux_word_break w _ [] hnw]
      simp only [List.reverse_nil, List.nil_append]
      rw [if_neg hne]
      rw [show wordsAux (joinSpace (w' :: ws')) [] = wordsOf (joinSpace (w' :: ws')) from rfl]
      rw [ih (fun w'' hw'' => h w'' (List.mem_cons_of_mem w hw''))]
      rfl

lemma joinSpace_chars (ws : List (List Char)) :
    ∀ c ∈ joinSpace ws, c = ' ' ∨ ∃ w ∈ ws, c ∈ w := by
  induction ws with
  | nil => simp [joinSpace]
  | cons w ws ih =>
    cases ws with
    | nil =>
      intro c hc
      exact Or.inr ⟨w, List.mem_cons_self w [], hc⟩
    | cons w' ws' =>
      intro c hc
      rw [show joinSpace (w :: w' :: ws') = w ++ ' ' :: joinSpace (w' :: ws') from rfl] at hc
      rcases List.mem_append.mp hc with h | h
      · exact Or.inr ⟨w, List.mem_cons_self w _, h⟩
      · rcases List.mem_cons.mp h with h' | h'
        · exact Or.inl h'
        · rcases ih c h' with h'' | ⟨w'', hw'', hc''⟩
          · exact Or.inl h''
          · exact Or.inr ⟨w'', List.mem_cons_of_mem w hw'', hc''⟩

lemma joinSpace_head_not_ws (ws : List (List Char))
    (h : ∀ w ∈ ws, w ≠ [] ∧ ∀ c ∈ w, c.isWhitespace = false) :
    ∀ c, (joinSpace ws).head? = some c → c.isWhitespace = false := by
  cases ws with
  | nil => intro c hc; simp [joinSpace] at hc
  | cons w ws' =>
    obtain ⟨hne, hnw⟩ := h w (List.mem_cons_self w ws')
    cases w with
    | nil => exact absurd rfl hne
    | cons a as =>
      intro c hc
      cases ws' with
      | nil =>
        simp only [joinSpace, List.head?_cons] at hc
        cases hc
        exact hnw a (List.mem_cons_self a as)
      | cons w' ws'' =>
        rw [show joinSpace ((a :: as) :: w' :: ws'') =
          (a :: as) ++ ' ' :: joinSpace (w' :: ws'') from rfl] at hc
        simp only [List.cons_append, List.head?_cons] at hc
        cases hc
        exact hnw a (List.mem_cons_self a as)

lemma joinSpace_last_not_ws (ws : List (List Char))
    (h : ∀ w ∈ ws, w ≠ [] ∧ ∀ c ∈ w, c.isWhitespace = false) :
    ∀ c, (joinSpace ws).getLast? = some c → c.isWhitespace = false := by
  induction ws with
  | nil => intro c hc; simp [joinSpace] at hc
  | cons w ws' ih =>
    obtain ⟨hne, hnw⟩ := h w (List.mem_cons_self w ws')
    cases ws' with
    | nil =>
      intro c hc
      have hcmem : c ∈ w := by
        have := List.getLast?_eq_getLast w hne
        rw [show joinSpace [w] = w from rfl] at hc
        rw [this] at hc
        cases hc
        exact List.getLast_mem hne
      exact hnw c hcmem
    | cons w' ws'' =>
      intro c hc
      rw [show joinSpace (w :: w' :: ws'') = w ++ ' ' :: joinSpace (w' :: ws'') from rfl] at hc
      rw [List.getLast?_append_of_ne_nil w (by simp)] at hc
      have hjne : joinSpace (w' :: ws'') ≠ [] := by
        obtain ⟨hne', _⟩ := h w' (List.mem_cons_of_mem w (List.mem_cons_self w' ws''))
        cases ws'' with
        | nil => exact hne'
        | cons w'' ws''' =>
          rw [show joinSpace (w' :: w'' :: ws''') = w' ++ ' ' :: joinSpace (w'' :: ws''') from rfl]
          cases w' with
          | nil => simp
          | cons b bs => simp
      obtain ⟨x, xs, hx⟩ := List.exists_cons_of_ne_nil hjne
      rw [hx, List.getLast?_cons_cons, ← hx] at hc
      exact ih (fun w'' hw'' => h w'' (List.mem_cons_of_mem w hw'')) c hc

lemma no_space_chain (l : List Char) (h : ∀ c ∈ l, c.isWhitespace = false) :
    l.Chain' (fun a b => ¬(a = ' ' ∧ b = ' ')) := by
  induction l with
  | nil => simp
  | cons a l ih =>
    rw [List.chain'_cons']
    refine ⟨?_, ih (fun c hc => h c (List.mem_cons_of_mem a hc))⟩
    rintro y _ ⟨ha, _⟩
    have := h a (List.mem_cons_self a l)
    rw [ha] at this
    exact absurd this (by decide)

lemma joinSpace_chain (ws : List (List Char))
    (h : ∀ w ∈ ws, w ≠ [] ∧ ∀ c ∈ w, c.isWhitespace = false) :
    (joinSpace ws).Chain' (fun a b => ¬(a = ' ' ∧ b = ' ')) := by
  induction ws with
  | nil => simp [joinSpace]
  | cons w ws' ih =>
    obtain ⟨hne, hnw⟩ := h w (List.mem_cons_self w ws')
    cases ws' with
    | nil => exact no_space_chain w hnw
    | cons w' ws'' =>
      have hrest : ∀ w'' ∈ w' :: ws'', w'' ≠ [] ∧ ∀ c ∈ w'', c.isWhitespace = false :=
        fun w'' hw'' => h w'' (List.mem_cons_of_mem w hw'')
      rw [show joinSpace (w :: w' :: ws'') = w ++ ' ' :: joinSpace (w' :: ws'') from rfl]
      rw [List.chain'_append]
      refine ⟨no_space_chain w hnw, ?_, ?_⟩
      · rw [List.chain'_cons']
        refine ⟨?_, ih hrest⟩
        rintro y hy ⟨_, hy'⟩
        have := joinSpace_head_not_ws (w' :: ws'') hrest y hy
        rw [hy'] at this
        exact absurd this (by decide)
      · rintro x hx y hy ⟨hx', _⟩
        have hxw : x ∈ w := by
          rw [List.getLast?_eq_getLast w hne] at hx
          cases hx
          exact List.getLast_mem hne
        have := hnw x hxw
        rw [hx'] at this
        exact absurd this (by decide)

lemma keptWords_props (l : List Char) :
    ∀ w ∈ (wordsOf l).filter (fun w => ¬ stopwords.contains (String.mk w)),
      w ≠ [] ∧ ∀ c ∈ w, c.isWhitespace = false ∧ c ∈ l := by
  intro w hw
  have hw' : w ∈ wordsOf l := List.mem_of_mem_filter hw
  exact wordsOf_sound l w hw'

/-! ## C9: `normalize_title` -/

/-- C9 (counterexample): The claim says the output retains *only letters,
digits and whitespace*; but the regex `[^\w\s]` also retains the underscore,
which is neither: `normalize_title "x_y" = "x_y"`. -/
theorem C9_counterexample :
    ¬ (∀ c ∈ (normalize_title "x_y").data, c.isAlphanum = true ∨ c.isWhitespace = true) := by
  decide

/-- C9 (amended): `normalize_title` lowercases (no uppercase ASCII letter
survives), strips to word characters (letters, digits, underscore — Python
`\w`) and whitespace, collapses whitespace runs to single spaces with no
leading or trailing space, removes every stop-word, and maps
`"The Quick, Brown Fox!"` and `"quick brown fox"` to the same string. -/
theorem C9_normalize_amended (t : String) :
    (∀ c ∈ (normalize_title t).data, isWordChar c = true ∨ c = ' ') ∧
    (normalize_title t).data.Chain' (fun a b => ¬(a = ' ' ∧ b = ' ')) ∧
    (∀ c, (normalize_title t).data.head? = some c → c.isWhitespace = false) ∧
    (∀ c, (normalize_title t).data.getLast? = some c → c.isWhitespace = false) ∧
    (∀ w ∈ wordsOf (normalize_title t).data, String.mk w ∉ stopwords) ∧
    (∀ c ∈ (normalize_title t).data, c.isUpper = false) ∧
    normalize_title "The Quick, Brown Fox!" = normalize_title "quick brown fox" := by
  have hout : (normalize_title t).data =
      joinSpace ((wordsOf ((t.data.map Char.toLower).filter
        (fun c => isWordChar c || c.isWhitespace))).filter
        (fun w => ¬ stopwords.contains (String.mk w))) := rfl
  have hkeptP := keptWords_props ((t.data.map Char.toLower).filter
    (fun c => isWordChar c || c.isWhitespace))
  have hkeptP' : ∀ w ∈ (wordsOf ((t.data.map Char.toLower).filter
      (fun c => isWordChar c || c.isWhitespace))).filter
      (fun w => ¬ stopwords.contains (String.mk w)),
      w ≠ [] ∧ ∀ c ∈ w, c.isWhitespace = false :=
    fun w hw => ⟨(hkeptP w hw).1, fun c hc => ((hkeptP w hw).2 c hc).1⟩
  refine ⟨?_, ?_, ?_, ?_, ?_, ?_, by decide⟩
  · intro c hc
    rw [hout] at hc
    rcases joinSpace_chars _ c hc with h | ⟨w, hw, hcw⟩
    · exact Or.inr h
    · left
      obtain ⟨hnw, hmem⟩ := (hkeptP w hw).2 c hcw
      have := (List.mem_filter.mp hmem).2
      rcases Bool.or_eq_true_iff.mp this with h' | h'
      · exact h'
      · rw [h'] at hnw; cases hnw
  · rw [hout]
    exact joinSpace_chain _ hkeptP'
  · rw [hout]
    exact joinSpace_head_not_ws _ hkeptP'
  · rw [hout]
    exact joinSpace_last_not_ws _ hkeptP'
  · rw [hout, wordsOf_joinSpace _ hkeptP']
    intro w hw
    have := (List.mem_filter.mp hw).2
    simp only [decide_not, Bool.not_eq_true', decide_eq_false_iff_not] at this
    intro hmem
    exact this (List.elem_eq_true_of_mem hmem)
  · intro c hc
    rw [hout] at hc
    rcases joinSpace_chars _ c hc with h | ⟨w, hw, hcw⟩
    · rw [h]; decide
    · obtain ⟨_, hmem⟩ := (hkeptP w hw).2 c hcw
      have hlow := (List.mem_filter.mp hmem).1
      obtain ⟨c₀, _, hc₀⟩ := List.mem_map.mp hlow
      rw [← hc₀]
      exact toLower_isUpper c₀

/-- C9 witness: the concrete normalization example extracted from the
amended theorem. -/
theorem C9_witness :
    normalize_title "The Quick, Brown Fox!" = normalize_title "quick brown fox" :=
  (C9_normalize_amended "").2.2.2.2.2.2

/-! ## Lemmas: filtered scans -/

lemma filter_findSome?_some {α β : Type} (p : α → Bool) (g : α → Option β) (db : List α)
    (b : β) (h : (db.filter p).findSome? g = some b) :
    ∃ pre r post, db = pre ++ r :: post ∧ p r = true ∧ g r = some b ∧
      ∀ r' ∈ pre, p r' = true → g r' = none := by
  induction db with
  | nil => simp at h
  | cons r db ih =>
    by_cases hp : p r = true
    · rw [List.filter_cons_of_pos hp, List.findSome?_cons] at h
      cases hg : g r with
      | some b' =>
        rw [hg] at h
        have h' : some b' = some b := h
        refine ⟨[], r, db, rfl, hp, ?_, by simp⟩
        rw [hg, h']
      | none =>
        rw [hg] at h
        have h : List.findSome? g (List.filter p db) = some b := h
        obtain ⟨pre, rr, post, hdb, hp', hg', hpre⟩ := ih h
        refine ⟨r :: pre, rr, post, by rw [hdb]; rfl, hp', hg', ?_⟩
        intro r' hr' hpr'
        rcases List.mem_cons.mp hr' with h' | h'
        · rw [h']; exact hg
        · exact hpre r' h' hpr'
    · rw [List.filter_cons_of_neg hp] at h
      obtain ⟨pre, rr, post, hdb, hp', hg', hpre⟩ := ih h
      refine ⟨r :: pre, rr, post, by rw [hdb]; rfl, hp', hg', ?_⟩
      intro r' hr' hpr'
      rcases List.mem_cons.mp hr' with h' | h'
      · rw [h'] at hpr'; exact absurd hpr' hp
      · exact hpre r' h' hpr'

/-! ## Concrete sample data (used by witnesses and counterexamples) -/

/-- Sample canonical article "Alpha Beta" from source S1. -/
def sampleA1 : Article := { title := "Alpha Beta", url := "u1", source := "S1" }

/-- Near-duplicate of `sampleA1` from source S2 (different url, so a new id). -/
def sampleA2 : Article := { title := "alpha beta!!", url := "u2", source := "S2" }

/-- A second near-duplicate from the same source S2. -/
def sampleA3 : Article := { title := "Alpha beta", url := "u3", source := "S2" }

/-- A stored canonical row for "Alpha Beta" created at the epoch (its
`created_at` is `CURRENT_TIMESTAMP` at instant 0). -/
def sampleOldRow : Row :=
  { id := "u0", title := "Alpha Beta", normalized_title := some "alpha beta", url := "u0",
    source := "S0", timestamp := none, content := none,
    created_at := "1970-01-01 00:00:00", sent := false,
    duplicate_of := none, other_sources := none }

/-! ## C4: `find_similar`'s window is broken by the timestamp formats -/

/-- The UTC instant 1970-01-02 23:45:00 — 45 minutes before `bugNow`. -/
def bugCreated : Int := 171900

/-- The clock reading 1970-01-03 00:30:00 (local offset 0). -/
def bugNow : Int := 174600

/-- A canonical row whose `CURRENT_TIMESTAMP` text records `bugCreated`,
45 minutes — squarely inside the 24-hour window — before `bugNow`. -/
def bugRow : Row :=
  { id := "u0", title := "Alpha Beta", normalized_title := some "alpha beta", url := "u0",
    source := "S0", timestamp := none, content := none,
    created_at := sqliteTimestamp bugCreated, sent := false,
    duplicate_of := none, other_sources := none }

/-- C4 (code bug): the window scope — compare only, but all, canonical rows
with `created_at` within `withinHours` of now — is the evident intent of
`cutoff = datetime.now() - timedelta(hours=hours)` and `created_at > ?`; the
code misses it because the stored text `"1970-01-02 23:45:00"` and the bound
cutoff text `"1970-01-02T00:30:00"` differ in format, and `' ' < 'T'`
byte-wise, so every row dated on the cutoff's calendar day sorts below the
cutoff regardless of its time of day.  This theorem evaluates the code at the
failing input: a canonical row with similarity score 100 created 45 minutes
before a just-after-midnight `now` is in the window, yet `find_similar`
returns `none` and `save_article` inserts the candidate as a fresh canonical
record instead of linking it. -/
theorem C4_code_bug :
    (bugNow - 24 * 3600 < bugCreated ∧ bugCreated ≤ bugNow) ∧
    bugRow.created_at = sqliteTimestamp bugCreated ∧
    bugRow.created_at = "1970-01-02 23:45:00" ∧
    pyIsoformat (bugNow - 24 * 3600) = "1970-01-02T00:30:00" ∧
    bugRow.duplicate_of = none ∧
    SIMILARITY_THRESHOLD ≤
      token_sort_ratio (normalize_title sampleA2.title) (rowNormalized bugRow) ∧
    find_similar [bugRow] sampleA2 bugNow = none ∧
    save_article [bugRow] sampleA2 bugNow 0 =
      ([bugRow] ++ [freshRow sampleA2 bugNow], true) := by
  decide

/-! ## Lemmas: `save_article` normal forms -/

lemma save_article_dup (db : List Row) (a : Article) (now tz : Int) (oid : String) (sc : Nat)
    (hex : ¬ article_exists db a = true)
    (hsim : find_similar db a (now + tz) = some (oid, sc)) :
    save_article db a now tz =
      ((db ++ [dupRow a now oid]).map (fun r =>
        if r.id = oid then
          { r with other_sources := some (appendSourceStr
              ((((db ++ [dupRow a now oid]).find? (fun r => r.id == oid)).bind
                Row.other_sources).getD "") a.source) }
        else r), false) := by
  rw [save_article, if_neg hex, hsim]

lemma save_article_fresh (db : List Row) (a : Article) (now tz : Int)
    (hex : ¬ article_exists db a = true) (hsim : find_similar db a (now + tz) = none) :
    save_article db a now tz = (db ++ [freshRow a now], true) := by
  rw [save_article, if_neg hex, hsim]

lemma article_exists_append (db : List Row) (x : Row) (a : Article) :
    article_exists (db ++ [x]) a = (article_exists db a || (x.id == a.id)) := by
  simp [article_exists, List.any_append]

lemma article_exists_map_upd (db : List Row) (oid ns : String) (a : Article) :
    article_exists (db.map (fun r =>
        if r.id = oid then { r with other_sources := some ns } else r)) a
      = article_exists db a := by
  simp only [article_exists, List.any_map]
  congr 1
  funext r
  simp only [Function.comp]
  split <;> rfl

lemma article_exists_after_save (db : List Row) (a : Article) (now tz : Int) :
    article_exists (save_article db a now tz).1 a = true := by
  by_cases hex : article_exists db a = true
  · rw [save_article, if_pos hex]
    exact hex
  · cases hsim : find_similar db a (now + tz) with
    | none =>
      rw [save_article_fresh db a now tz hex hsim]
      rw [article_exists_append]
      simp [freshRow]
    | some v =>
      obtain ⟨oid, sc⟩ := v
      rw [save_article_dup db a now tz oid sc hex hsim]
      rw [article_exists_map_upd, article_exists_append]
      simp [dupRow]

/-! ## C5: `save_article` return value and idempotence -/

/-- C5: `save_article` returns `true` iff the record is new and not a
near-duplicate: an existing id is a no-op returning `false`; otherwise the
record is inserted (duplicate-linked or fresh canonical) and the return value
is `true` exactly when the deduplicator found no match; a repeated call with
the same id is a no-op returning `false` and never creates a second row
(exactly one row carries the id after the first save). -/
theorem C5_save_semantics (db : List Row) (a : Article) (now tz later tz' : Int) :
    (article_exists db a = true → save_article db a now tz = (db, false)) ∧
    (article_exists db a = false →
      ((save_article db a now tz).2 = true ↔ find_similar db a (now + tz) = none)) ∧
    (article_exists db a = false →
      (save_article db a now tz).1.countP (fun r => r.id == a.id) = 1) ∧
    (save_article (save_article db a now tz).1 a later tz' =
      ((save_article db a now tz).1, false)) := by
  refine ⟨?_, ?_, ?_, ?_⟩
  · intro hex
    rw [save_article, if_pos hex]
  · intro hex
    cases hsim : find_similar db a (now + tz) with
    | none =>
      rw [save_article_fresh db a now tz (by rw [hex]; simp) hsim]
      simp
    | some v =>
      obtain ⟨oid, sc⟩ := v
      rw [save_article_dup db a now tz oid sc (by rw [hex]; simp) hsim]
      simp
  · intro hex
    have h0 : db.countP (fun r => r.id == a.id) = 0 := by
      rw [List.countP_eq_zero]
      intro r hr
      have := List.any_eq_false.mp (by rw [← article_exists]; exact hex) r hr
      simpa using this
    cases hsim : find_similar db a (now + tz) with
    | none =>
      rw [save_article_fresh db a now tz (by rw [hex]; simp) hsim]
      rw [List.countP_append, h0]
      simp [freshRow]
    | some v =>
      obtain ⟨oid, sc⟩ := v
      rw [save_article_dup db a now tz oid sc (by rw [hex]; simp) hsim]
      rw [List.countP_map]
      have hcong : ∀ r ∈ db ++ [dupRow a now oid],
          ((fun r : Row => r.id == a.id) ∘ (fun r : Row =>
            if r.id = oid then
              { r with other_sources := some (appendSourceStr
                  ((((db ++ [dupRow a now oid]).find? (fun r => r.id == oid)).bind
                    Row.other_sources).getD "") a.source) }
            else r)) r = true ↔ (fun r : Row => r.id == a.id) r = true := by
        intro r _
        simp only [Function.comp]
        split <;> exact Iff.rfl
      rw [List.countP_congr hcong]
      rw [List.countP_append, h0]
      simp [dupRow]
  · have hex' := article_exists_after_save db a now tz
    rw [save_article, if_pos hex']

/-- C5 witness: saving a fresh article returns `true`; saving it again is
a no-op returning `false`. -/
theorem C5_witness :
    (save_article [] sampleA1 0 0).2 = true ∧
    save_article (save_article [] sampleA1 0 0).1 sampleA1 5 0 =
      ((save_article [] sampleA1 0 0).1, false) :=
  ⟨((C5_save_semantics [] sampleA1 0 0 5 0).2.1 (by decide)).mpr (by decide),
   (C5_save_semantics [] sampleA1 0 0 5 0).2.2.2⟩

/-! ## C1: duplicate linking and `other_sources` accumulation -/

lemma find?_unique_id (l : List Row) (r : Row) (hN : (l.map Row.id).Nodup) (hmem : r ∈ l) :
    l.find? (fun x => x.id == r.id) = some r := by
  induction l with
  | nil => cases hmem
  | cons x l ih =>
    rw [List.map_cons, List.nodup_cons] at hN
    rcases List.mem_cons.mp hmem with h | h
    · rw [h]
      rw [List.find?_cons_of_pos _ (by simp)]
    · have hx : (x.id == r.id) = false := by
        simp only [beq_eq_false_iff_ne, ne_eq]
        intro he
        exact hN.1 (by rw [he]; exact List.mem_map_of_mem Row.id h)
      rw [List.find?_cons, hx]
      exact ih hN.2 h

/-- C1 (counterexample): The claim requires that after ingesting any
number of near-duplicates from the same source, the source name appears in the
canonical record's `other_sources` exactly once; but `save_article` appends
unconditionally, so after two near-duplicates from source S2 the canonical
record lists S2 twice. -/
theorem C1_counterexample :
    ∃ r ∈ (save_article (save_article (save_article [] sampleA1 0 0).1
        sampleA2 100 0).1 sampleA3 200 0).1,
      r.id = sampleA1.id ∧ (parse_other_sources r.other_sources).count "S2" = 2 := by
  decide

/-- C1 (amended): On a dedup match, `save_article` persists the new record
with `duplicate_of` set to the canonical record's id and `sent = true`, and
appends the new record's source name to the canonical record's
`other_sources` *unconditionally* — an already-listed source name is appended
again, so the name appears once per ingested near-duplicate. -/
theorem C1_dup_link_amended (db : List Row) (a : Article) (now tz : Int)
    (oid : String) (sc : Nat)
    (hex : article_exists db a = false)
    (hsim : find_similar db a (now + tz) = some (oid, sc))
    (hN : (db.map Row.id).Nodup) :
    ((save_article db a now tz).2 = false) ∧
    (∃ rNew ∈ (save_article db a now tz).1,
      rNew.id = a.id ∧ rNew.duplicate_of = some oid ∧ rNew.sent = true) ∧
    (∀ r ∈ db, r.id = oid →
      ∃ r' ∈ (save_article db a now tz).1, r'.id = oid ∧
        r'.other_sources =
          some (appendSourceStr ((r.other_sources).getD "") a.source) ∧
        r'.sent = r.sent ∧ r'.duplicate_of = r.duplicate_of) := by
  have hexb : ¬ article_exists db a = true := by rw [hex]; simp
  have hna : a.id ∉ db.map Row.id := by
    intro hmem
    obtain ⟨r, hr, hrid⟩ := List.mem_map.mp hmem
    have : article_exists db a = true :=
      List.any_eq_true.mpr ⟨r, hr, by simp [hrid]⟩
    rw [hex] at this
    cases this
  obtain ⟨pre, rm, post, hdb, hp, hg, hpre⟩ :=
    filter_findSome?_some _ _ db _ (show
      (db.filter (fun r =>
          textLt (pyIsoformat (now + tz - 24 * 3600)) r.created_at &&
            r.duplicate_of.isNone)).findSome?
        (fun r =>
          let similarity := token_sort_ratio (normalize_title a.title) (rowNormalized r)
          if SIMILARITY_THRESHOLD ≤ similarity then some (r.id, similarity) else none) =
        some (oid, sc) from hsim)
  have hrm_mem : rm ∈ db := by
    rw [hdb]
    exact List.mem_append.mpr (Or.inr (List.mem_cons_self rm post))
  have hrm_id : rm.id = oid := by
    simp only [] at hg
    split at hg
    · injection hg with hg'
      exact congrArg Prod.fst hg'
    · exact absurd hg (by simp)
  have hanid : a.id ≠ oid := by
    intro he
    exact hna (by rw [he, ← hrm_id]; exact List.mem_map_of_mem Row.id hrm_mem)
  have hN1 : ((db ++ [dupRow a now oid]).map Row.id).Nodup := by
    rw [List.map_append]
    rw [List.nodup_append]
    refine ⟨hN, by simp [dupRow], ?_⟩
    intro x hx
    simp only [List.map_cons, List.map_nil, List.mem_singleton]
    intro hx'
    rw [show (dupRow a now oid).id = a.id from rfl] at hx'
    rw [hx'] at hx
    exact hna hx
  rw [save_article_dup db a now tz oid sc hexb hsim]
  refine ⟨rfl, ?_, ?_⟩
  · refine ⟨dupRow a now oid, ?_, rfl, rfl, rfl⟩
    apply List.mem_map.mpr
    refine ⟨dupRow a now oid, List.mem_append.mpr (Or.inr (List.mem_cons_self _ _)), ?_⟩
    rw [if_neg (by rw [show (dupRow a now oid).id = a.id from rfl]; exact hanid)]
  · intro r hr hrid
    have hr1 : r ∈ db ++ [dupRow a now oid] := List.mem_append.mpr (Or.inl hr)
    have hfind : (db ++ [dupRow a now oid]).find? (fun x => x.id == oid) = some r := by
      have := find?_unique_id (db ++ [dupRow a now oid]) r hN1 hr1
      rw [hrid] at this
      exact this
    refine ⟨_, List.mem_map_of_mem _ hr1, ?_⟩
    rw [if_pos hrid]
    refine ⟨hrid, ?_, rfl, rfl⟩
    simp only []
    rw [hfind]
    rfl

/-- C1 witness: ingesting the near-duplicate `sampleA2` against the stored
canonical record of `sampleA1` links it via `duplicate_of` with `sent = true`. -/
theorem C1_witness :
    ∃ rNew ∈ (save_article [freshRow sampleA1 0] sampleA2 100 0).1,
      rNew.id = sampleA2.id ∧ rNew.duplicate_of = some "u1" ∧ rNew.sent = true :=
  (C1_dup_link_amended [freshRow sampleA1 0] sampleA2 100 0 "u1" 100
    (by decide) (by decide) (by decide)).2.1

/-! ## C7: duplicate-linked rows are suppressed -/

/-- The duplicate-suppression invariant: every row with a non-null
`duplicate_of` is marked sent. -/
def DupSent (db : List Row) : Prop :=
  ∀ r ∈ db, r.duplicate_of ≠ none → r.sent = true

/-- C7: Every stored record with non-null `duplicate_of` has `sent = true`:
the invariant holds of the empty store, is preserved by `save_article`,
`mark_sent` and `cleanup_old`, is established at insertion time for newly
inserted rows, and the unsent query never selects a duplicate-linked row. -/
theorem C7_dup_suppression (db : List Row) (a : Article) (now tz days : Int) :
    DupSent [] ∧
    (DupSent db → DupSent (save_article db a now tz).1) ∧
    (DupSent db → ∀ r ∈ (save_article db a now tz).1, r ∉ db →
      r.duplicate_of ≠ none → r.sent = true) ∧
    (DupSent db → DupSent (mark_sent db a)) ∧
    (DupSent db → DupSent (cleanup_old db now days)) ∧
    (∀ r ∈ unsent_rows db, r.duplicate_of = none ∧ r.sent = false) := by
  have hsave : DupSent db → DupSent (save_article db a now tz).1 := by
    intro h
    by_cases hex : article_exists db a = true
    · rw [save_article, if_pos hex]
      exact h
    · cases hsim : find_similar db a (now + tz) with
      | none =>
        rw [save_article_fresh db a now tz hex hsim]
        intro r hr hd
        rcases List.mem_append.mp hr with h' | h'
        · exact h r h' hd
        · rw [List.mem_singleton] at h'
          rw [h'] at hd
          exact absurd rfl hd
      | some v =>
        obtain ⟨oid, sc⟩ := v
        rw [save_article_dup db a now tz oid sc hex hsim]
        intro r hr hd
        obtain ⟨x, hx, hxr⟩ := List.mem_map.mp hr
        rcases List.mem_append.mp hx with h' | h'
        · have hsent := h x h' (by
            intro hxd
            apply hd
            rw [← hxr]
            split <;> simpa using hxd)
          rw [← hxr]
          split
          · simpa using hsent
          · exact hsent
        · rw [List.mem_singleton] at h'
          rw [← hxr, h']
          split <;> rfl
  refine ⟨?_, hsave, ?_, ?_, ?_, ?_⟩
  · intro r hr
    cases hr
  · intro h r hr hnotin hd
    exact hsave h r hr hd
  · intro h r hr hd
    obtain ⟨x, hx, hxr⟩ := List.mem_map.mp hr
    rw [← hxr]
    split
    · rfl
    · apply h x hx
      intro hxd
      apply hd
      rw [← hxr]
      split <;> simpa using hxd
  · intro h r hr hd
    exact h r (List.mem_of_mem_filter hr) hd
  · intro r hr
    have := (List.mem_filter.mp hr).2
    rw [Bool.and_eq_true, Bool.not_eq_true', Option.isNone_iff_eq_none] at this
    exact ⟨this.2, this.1⟩

/-- C7 witness: the invariant holds after linking `sampleA2` as a
duplicate into the store holding `sampleA1`'s canonical row. -/
theorem C7_witness :
    DupSent (save_article [freshRow sampleA1 0] sampleA2 100 0).1 :=
  (C7_dup_suppression [freshRow sampleA1 0] sampleA2 100 0 7).2.1 (by
    intro r hr hd
    rw [List.mem_singleton] at hr
    rw [hr] at hd
    exact absurd rfl hd)

/-! ## C8: the unsent query -/

/-- `ORDER BY timestamp DESC` lifted to projected articles (NULL last). -/
def artTsLe (a1 a2 : Article) : Prop :=
  tsLeB a1.timestamp a2.timestamp = true

lemma tsLeB_total (t1 t2 : Option Int) : tsLeB t1 t2 = true ∨ tsLeB t2 t1 = true := by
  rcases t1 with _ | x <;> rcases t2 with _ | y <;> simp [tsLeB] <;> omega

lemma tsLeB_trans (t1 t2 t3 : Option Int) (h1 : tsLeB t1 t2 = true)
    (h2 : tsLeB t2 t3 = true) : tsLeB t1 t3 = true := by
  rcases t1 with _ | x <;> rcases t2 with _ | y <;> rcases t3 with _ | z <;>
    simp_all [tsLeB] <;> omega

instance : IsTotal Row tsRel := ⟨fun a b => tsLeB_total a.timestamp b.timestamp⟩

instance : IsTrans Row tsRel := ⟨fun _ _ _ h1 h2 => tsLeB_trans _ _ _ h1 h2⟩

/-- C8: `get_unsent_articles` returns exactly the projections of the rows
with `sent = false` and `duplicate_of` null (a permutation of them), sorted by
timestamp descending with NULL-timestamp records consistently last, and each
result's `other_sources` is parsed back from the stored row. -/
theorem C8_unsent_query (db : List Row) :
    (get_unsent_articles db).Perm ((unsent_rows db).map rowToArticle) ∧
    (get_unsent_articles db).Pairwise artTsLe ∧
    (∀ x ∈ get_unsent_articles db, ∃ r ∈ db, r.sent = false ∧ r.duplicate_of = none ∧
      x = rowToArticle r ∧ x.other_sources = parse_other_sources r.other_sources) := by
  refine ⟨?_, ?_, ?_⟩
  · exact List.Perm.map rowToArticle (List.perm_insertionSort tsRel (unsent_rows db))
  · have hsorted := List.sorted_insertionSort tsRel (unsent_rows db)
    exact List.Pairwise.map rowToArticle (fun r1 r2 h => h) hsorted
  · intro x hx
    obtain ⟨r, hr, hrx⟩ := List.mem_map.mp hx
    have hr' : r ∈ unsent_rows db :=
      (List.perm_insertionSort tsRel (unsent_rows db)).mem_iff.mp hr
    obtain ⟨hrdb, hpred⟩ := List.mem_filter.mp hr'
    rw [Bool.and_eq_true, Bool.not_eq_true', Option.isNone_iff_eq_none] at hpred
    exact ⟨r, hrdb, hpred.1, hpred.2, hrx.symm, by rw [← hrx]; rfl⟩

/-- C8 witness: the single unsent canonical row is returned, projected
with its parsed `other_sources`. -/
theorem C8_witness :
    ∃ r ∈ [sampleOldRow], r.sent = false ∧ r.duplicate_of = none ∧
      rowToArticle sampleOldRow = rowToArticle r ∧
      (rowToArticle sampleOldRow).other_sources = parse_other_sources r.other_sources :=
  (C8_unsent_query [sampleOldRow]).2.2 (rowToArticle sampleOldRow) (by decide)

/-! ## C2: the sleep schedule of `send_batch` -/

lemma send_batch_loop_events (outs : List Bool) :
    ∀ (delay : ℚ) (processed sent : Nat),
      ((send_batch_loop outs delay processed sent).2.length = outs.length - 1) ∧
      (∀ k, k < outs.length - 1 →
        (send_batch_loop outs delay processed sent).2[k]? =
          some (if (processed + k + 1) % BATCH_SIZE = 0 then SleepEvent.batchPause
            else SleepEvent.adaptive (List.foldl delayStep delay (outs.take (k + 1))))) := by
  induction outs with
  | nil =>
    intro delay processed sent
    exact ⟨rfl, fun k hk => by simp at hk⟩
  | cons success rest ih =>
    intro delay processed sent
    cases rest with
    | nil =>
      refine ⟨by simp [send_batch_loop], ?_⟩
      intro k hk
      simp at hk
    | cons s2 rest' =>
      have hloop : send_batch_loop (success :: s2 :: rest') delay processed sent =
          ((send_batch_loop (s2 :: rest') (delayStep delay success) (processed + 1)
              (if success then sent + 1 else sent)).1,
            (if (processed + 1) % BATCH_SIZE = 0 then SleepEvent.batchPause
              else SleepEvent.adaptive (delayStep delay success)) ::
            (send_batch_loop (s2 :: rest') (delayStep delay success) (processed + 1)
              (if success then sent + 1 else sent)).2) := by
        rw [send_batch_loop]
        simp only [List.isEmpty_cons, Bool.false_eq_true, if_false]
        split <;> rfl
      obtain ⟨ihlen, ihget⟩ := ih (delayStep delay success) (processed + 1)
        (if success then sent + 1 else sent)
      constructor
      · rw [hloop]
        simp only [List.length_cons, ihlen]
        simp
      · intro k hk
        rw [hloop]
        cases k with
        | zero =>
          simp only [List.getElem?_cons_zero]
          rfl
        | succ k' =>
          simp only [List.getElem?_cons_succ]
          have hk' : k' < (s2 :: rest').length - 1 := by
            simp only [List.length_cons] at hk ⊢
            omega
          rw [ihget k' hk']
          have harith : processed + 1 + k' + 1 = processed + (k' + 1) + 1 := by omega
          rw [harith, List.take_succ_cons, List.foldl_cons]
          rfl

/-- C2 (counterexample): The claim says a 10-record batch performs exactly
one MAX_DELAY pause, after the 10th record; but `send_batch` skips the wait
after the last record (`if i < len(articles) - 1`), so a 10-record batch
performs no MAX_DELAY pause at all. -/
theorem C2_counterexample :
    ¬ ((send_batch (List.replicate 10 true)).2.countP SleepEvent.isPause = 1) := by
  decide

/-- C2 (amended): After each record except the last, `send_batch` sleeps
`MAX_DELAY` when the count of records processed so far is a multiple of
`BATCH_SIZE` (10) and otherwise sleeps the current adaptive delay; hence a
batch of exactly 10 records performs no MAX_DELAY pause (the wait after the
10th record is skipped because it is the last), and the first batch pause
appears with an 11-record batch, after the 10th record. -/
theorem C2_batch_pause_amended (outs : List Bool) :
    ((send_batch outs).2.length = outs.length - 1) ∧
    (∀ k, k < outs.length - 1 →
      (send_batch outs).2[k]? =
        some (if (k + 1) % BATCH_SIZE = 0 then SleepEvent.batchPause
          else SleepEvent.adaptive (delayAfter (outs.take (k + 1))))) ∧
    (outs.length = 10 → (send_batch outs).2.countP SleepEvent.isPause = 0) ∧
    ((send_batch (List.replicate 11 true)).2.countP SleepEvent.isPause = 1 ∧
      ((send_batch (List.replicate 11 true)).2.getD 9 (SleepEvent.adaptive 0)).isPause = true) := by
  obtain ⟨hlen, hget⟩ := send_batch_loop_events outs MIN_DELAY 0 0
  refine ⟨hlen, ?_, ?_, by decide, by decide⟩
  · intro k hk
    have := hget k hk
    simpa [delayAfter] using this
  · intro h10
    rw [List.countP_eq_zero]
    intro ev hev
    obtain ⟨k, hk, hkev⟩ := List.mem_iff_getElem.mp hev
    have hlen' : (send_batch outs).2.length = outs.length - 1 := hlen
    have hk' : k < outs.length - 1 := by omega
    have this' : (send_batch outs).2[k]? =
        some (if (0 + k + 1) % BATCH_SIZE = 0 then SleepEvent.batchPause
          else SleepEvent.adaptive (List.foldl delayStep MIN_DELAY (List.take (k + 1) outs))) :=
      hget k hk'
    rw [List.getElem?_eq_getElem hk, hkev] at this'
    have this := this'
    have hk9 : k < 9 := by omega
    injection this with this
    rw [if_neg (by simp only [BATCH_SIZE]; omega)] at this
    rw [this]
    simp [SleepEvent.isPause]

/-- C2 witness: a 10-record batch of failures also performs no MAX_DELAY
batch pause. -/
theorem C2_witness :
    (send_batch (List.replicate 10 false)).2.countP SleepEvent.isPause = 0 :=
  (C2_batch_pause_amended (List.replicate 10 false)).2.2.1 (by decide)

/-! ## C6: adaptive-delay bounds and monotonicity -/

lemma delay_invariant (outs : List Bool) :
    ∀ d : ℚ, MIN_DELAY ≤ d → d ≤ MAX_DELAY →
      MIN_DELAY ≤ outs.foldl delayStep d ∧ outs.foldl delayStep d ≤ MAX_DELAY := by
  induction outs with
  | nil => exact fun d h1 h2 => ⟨h1, h2⟩
  | cons s outs ih =>
    intro d h1 h2
    rw [List.foldl_cons]
    apply ih
    · cases s
      · show MIN_DELAY ≤ min MAX_DELAY (d * 1.5)
        apply le_min
        · norm_num [MIN_DELAY, MAX_DELAY]
        · rw [show (MIN_DELAY : ℚ) = 1 from rfl] at h1 ⊢
          nlinarith
      · show MIN_DELAY ≤ max MIN_DELAY (d * 0.9)
        exact le_max_left _ _
    · cases s
      · show min MAX_DELAY (d * 1.5) ≤ MAX_DELAY
        exact min_le_left _ _
      · show max MIN_DELAY (d * 0.9) ≤ MAX_DELAY
        apply max_le
        · norm_num [MIN_DELAY, MAX_DELAY]
        · rw [show (MAX_DELAY : ℚ) = 5 from rfl] at h2 ⊢
          nlinarith

/-- C6: The adaptive delay of `send_batch` starts at `MIN_DELAY` and after
any outcome prefix stays within `[MIN_DELAY, MAX_DELAY]`; a failure strictly
increases any delay below `MAX_DELAY` and never exceeds `MAX_DELAY`; a success
strictly decreases any delay above `MIN_DELAY` and never drops below
`MIN_DELAY`; three consecutive failures from the initial delay form a strictly
increasing chain capped by `MAX_DELAY`, and three consecutive successes from
`MAX_DELAY` a strictly decreasing chain floored by `MIN_DELAY`; consequently
every adaptive sleep `send_batch` performs lies within
`[MIN_DELAY, MAX_DELAY]`. -/
theorem C6_delay_bounds :
    (delayAfter [] = MIN_DELAY) ∧
    (∀ outs : List Bool, MIN_DELAY ≤ delayAfter outs ∧ delayAfter outs ≤ MAX_DELAY) ∧
    (∀ d : ℚ, MIN_DELAY ≤ d → d < MAX_DELAY → d < delayStep d false) ∧
    (∀ d : ℚ, delayStep d false ≤ MAX_DELAY) ∧
    (∀ d : ℚ, MIN_DELAY < d → delayStep d true < d) ∧
    (∀ d : ℚ, MIN_DELAY ≤ delayStep d true) ∧
    (delayAfter [] < delayAfter [false] ∧
      delayAfter [false] < delayAfter [false, false] ∧
      delayAfter [false, false] < delayAfter [false, false, false] ∧
      delayAfter [false, false, false] ≤ MAX_DELAY) ∧
    (delayStep MAX_DELAY true < MAX_DELAY ∧
      delayStep (delayStep MAX_DELAY true) true < delayStep MAX_DELAY true ∧
      delayStep (delayStep (delayStep MAX_DELAY true) true) true <
        delayStep (delayStep MAX_DELAY true) true ∧
      MIN_DELAY ≤ delayStep (delayStep (delayStep MAX_DELAY true) true) true) ∧
    (∀ (outs : List Bool) (k : Nat), k < outs.length - 1 →
      (send_batch outs).2[k]? = some SleepEvent.batchPause ∨
      ∃ d : ℚ, (send_batch outs).2[k]? = some (SleepEvent.adaptive d) ∧
        MIN_DELAY ≤ d ∧ d ≤ MAX_DELAY) := by
  have hsf : ∀ d : ℚ, delayStep d false = min MAX_DELAY (d * 1.5) := fun d => rfl
  have hst : ∀ d : ℚ, delayStep d true = max MIN_DELAY (d * 0.9) := fun d => rfl
  refine ⟨rfl, ?_, ?_, ?_, ?_, ?_, ?_, ?_, ?_⟩
  · intro outs
    exact delay_invariant outs MIN_DELAY le_rfl (by norm_num [MIN_DELAY, MAX_DELAY])
  · intro d h1 h2
    rw [hsf, lt_min_iff]
    rw [show (MIN_DELAY : ℚ) = 1 from rfl] at h1
    rw [show (MAX_DELAY : ℚ) = 5 from rfl] at h2 ⊢
    constructor
    · exact h2
    · nlinarith
  · intro d
    rw [hsf]
    exact min_le_left _ _
  · intro d h1
    rw [hst, max_lt_iff]
    rw [show (MIN_DELAY : ℚ) = 1 from rfl] at h1 ⊢
    constructor
    · exact h1
    · nlinarith
  · intro d
    rw [hst]
    exact le_max_left _ _
  · refine ⟨?_, ?_, ?_, ?_⟩ <;> norm_num [delayAfter, delayStep, MIN_DELAY, MAX_DELAY]
  · refine ⟨?_, ?_, ?_, ?_⟩ <;> norm_num [delayStep, MIN_DELAY, MAX_DELAY]
  · intro outs k hk
    obtain ⟨hlen, hget⟩ := send_batch_loop_events outs MIN_DELAY 0 0
    have hev : (send_batch outs).2[k]? =
        some (if (0 + k + 1) % BATCH_SIZE = 0 then SleepEvent.batchPause
          else SleepEvent.adaptive (List.foldl delayStep MIN_DELAY (List.take (k + 1) outs))) :=
      hget k hk
    by_cases hmod : (0 + k + 1) % BATCH_SIZE = 0
    · left
      rw [hev, if_pos hmod]
    · right
      refine ⟨List.foldl delayStep MIN_DELAY (List.take (k + 1) outs),
        by rw [hev, if_neg hmod], ?_, ?_⟩
      · exact (delay_invariant (outs.take (k + 1)) MIN_DELAY le_rfl
          (by norm_num [MIN_DELAY, MAX_DELAY])).1
      · exact (delay_invariant (outs.take (k + 1)) MIN_DELAY le_rfl
          (by norm_num [MIN_DELAY, MAX_DELAY])).2

/-- C6 witness: a failure strictly increases a mid-range delay of 2s and a
success strictly decreases it, both staying in bounds. -/
theorem C6_witness :
    ((2 : ℚ) < delayStep 2 false ∧ delayStep 2 false ≤ MAX_DELAY) ∧
    (delayStep 2 true < 2 ∧ MIN_DELAY ≤ delayStep 2 true) :=
  ⟨⟨C6_delay_bounds.2.2.1 2 (by norm_num [MIN_DELAY]) (by norm_num [MAX_DELAY]),
    C6_delay_bounds.2.2.2.1 2⟩,
   ⟨C6_delay_bounds.2.2.2.2.1 2 (by norm_num [MIN_DELAY]),
    C6_delay_bounds.2.2.2.2.2.1 2⟩⟩

/-! ## C3: per-record retry, flood-control wait, degraded fallback -/

/-- The sleep performed for the outcome of attempt `k` when the retry loop
continues past it: the flood-control wait for `RetryAfter`, and the
exponential backoff `2^k` for a transient error on a non-final attempt. -/
def waitOf (out : Nat → AttemptOutcome) (k : Nat) : Option Wait :=
  match out k with
  | .success => none
  | .retryAfter n => some (Wait.retryWait n)
  | .tgError => if k < 2 then some (Wait.backoff k) else none

/-- C3 (counterexample): The claim says that whenever all 3 attempts fail
the degraded fallback is attempted; but when every attempt fails with the
flood-control signal, `send_article` makes 3 attempts, returns `False`, and
never attempts the fallback. -/
theorem C3_counterexample :
    (send_article "chan" sampleA1 (fun _ => AttemptOutcome.retryAfter 4) true).attempts = 3 ∧
    (send_article "chan" sampleA1 (fun _ => AttemptOutcome.retryAfter 4) true).ok = false ∧
    (send_article "chan" sampleA1
      (fun _ => AttemptOutcome.retryAfter 4) true).fallbackAttempted = false := by
  decide

/-- C3 (amended): With a configured channel and a non-skipped article,
when every attempt fails: exactly 3 primary attempts are made; each sleep is
the flood-control wait (`retry_after + 1` seconds) after a `RetryAfter`, and
the exponential backoff (`2^attempt` seconds) after a transient error on a
non-final attempt; the degraded fallback is attempted (once) iff the final
attempt failed with a transient error, and then its result is the final
outcome; if the final attempt failed with the flood-control signal, the
outcome is failure with no fallback; a failed outcome leaves the record
unmarked, so `sent` stays false for a future cycle. -/
theorem C3_retry_amended (c : String) (a : Article) (out : Nat → AttemptOutcome)
    (fb : Bool) (db : List Row) (s : Nat)
    (hc : c ≠ "") (hskip : should_skip a = false)
    (hfail : ∀ k, k < 3 → out k ≠ AttemptOutcome.success) :
    ((send_article c a out fb).attempts = 3) ∧
    ((send_article c a out fb).waits = (List.range 3).filterMap (waitOf out)) ∧
    (out 2 = AttemptOutcome.tgError →
      (send_article c a out fb).fallbackAttempted = true ∧
        (send_article c a out fb).ok = fb) ∧
    (out 2 ≠ AttemptOutcome.tgError →
      (send_article c a out fb).fallbackAttempted = false ∧
        (send_article c a out fb).ok = false) ∧
    (∀ n, (Wait.retryWait n).seconds = n + 1) ∧
    (∀ k, (Wait.backoff k).seconds = 2 ^ k) ∧
    ((send_article c a out fb).ok = false →
      send_pending_step db a (send_article c a out fb).ok s = (db, s)) := by
  have hsend : send_article c a out fb = attemptLoop out fb 3 0 := by
    rw [send_article, if_neg hc, if_neg (by rw [hskip]; simp)]
  have h0 := hfail 0 (by omega)
  have h1 := hfail 1 (by omega)
  have h2 := hfail 2 (by omega)
  have hrange : List.range 3 = [0, 1, 2] := by decide
  rcases ho0 : out 0 with _ | n0 | _
  · exact absurd ho0 h0
  · rcases ho1 : out 1 with _ | n1 | _
    · exact absurd ho1 h1
    · rcases ho2 : out 2 with _ | n2 | _
      · exact absurd ho2 h2
      · refine ⟨?_, ?_, ?_, ?_, fun n => rfl, fun k => rfl, ?_⟩ <;>
          simp [hsend, attemptLoop, ho0, ho1, ho2, waitOf, hrange, send_pending_step]
      · refine ⟨?_, ?_, ?_, ?_, fun n => rfl, fun k => rfl, ?_⟩ <;>
          simp [hsend, attemptLoop, ho0, ho1, ho2, waitOf, hrange, send_pending_step]
    · rcases ho2 : out 2 with _ | n2 | _
      · exact absurd ho2 h2
      · refine ⟨?_, ?_, ?_, ?_, fun n => rfl, fun k => rfl, ?_⟩ <;>
          simp [hsend, attemptLoop, ho0, ho1, ho2, waitOf, hrange, send_pending_step]
      · refine ⟨?_, ?_, ?_, ?_, fun n => rfl, fun k => rfl, ?_⟩ <;>
          simp [hsend, attemptLoop, ho0, ho1, ho2, waitOf, hrange, send_pending_step]
  · rcases ho1 : out 1 with _ | n1 | _
    · exact absurd ho1 h1
    · rcases ho2 : out 2 with _ | n2 | _
      · exact absurd ho2 h2
      · refine ⟨?_, ?_, ?_, ?_, fun n => rfl, fun k => rfl, ?_⟩ <;>
          simp [hsend, attemptLoop, ho0, ho1, ho2, waitOf, hrange, send_pending_step]
      · refine ⟨?_, ?_, ?_, ?_, fun n => rfl, fun k => rfl, ?_⟩ <;>
          simp [hsend, attemptLoop, ho0, ho1, ho2, waitOf, hrange, send_pending_step]
    · rcases ho2 : out 2 with _ | n2 | _
      · exact absurd ho2 h2
      · refine ⟨?_, ?_, ?_, ?_, fun n => rfl, fun k => rfl, ?_⟩ <;>
          simp [hsend, attemptLoop, ho0, ho1, ho2, waitOf, hrange, send_pending_step]
      · refine ⟨?_, ?_, ?_, ?_, fun n => rfl, fun k => rfl, ?_⟩ <;>
          simp [hsend, attemptLoop, ho0, ho1, ho2, waitOf, hrange, send_pending_step]

/-- C3 witness: three transient errors — backoff sleeps of 1s and 2s, then
the fallback's failure is the final outcome and the record stays unmarked. -/
theorem C3_witness :
    (send_article "chan" sampleA1 (fun _ => AttemptOutcome.tgError) false).attempts = 3 ∧
    (send_article "chan" sampleA1 (fun _ => AttemptOutcome.tgError) false).waits =
      (List.range 3).filterMap (waitOf (fun _ => AttemptOutcome.tgError)) :=
  ⟨(C3_retry_amended "chan" sampleA1 (fun _ => AttemptOutcome.tgError) false [] 0
      (by decide) (by decide) (fun _ _ h => AttemptOutcome.noConfusion h)).1,
   (C3_retry_amended "chan" sampleA1 (fun _ => AttemptOutcome.tgError) false [] 0
      (by decide) (by decide) (fun _ _ h => AttemptOutcome.noConfusion h)).2.1⟩

/-! ## C10: skip-pattern suppression -/

/-- A promo article whose url matches the `t.me/` skip pattern. -/
def samplePromo : Article := { title := "Promo", url := "https://t.me/chan", source := "S" }

/-- C10 (counterexample): The claim quantifies over every article matching
a skip pattern; but when no channel id is configured, `send_article` returns
`False` (the channel check precedes the skip check), so such an article is not
marked sent. -/
theorem C10_counterexample :
    should_skip samplePromo = true ∧
    (send_article "" samplePromo (fun _ => AttemptOutcome.success) true).ok = false := by
  decide

/-- C10 (amended): Provided a channel id is configured: for every article
whose title or URL matches a skip pattern, `send_article` returns `True` with
no delivery attempt, no sleep and no fallback; consequently `send_pending`
marks the record sent and counts it as delivered although nothing was posted. -/
theorem C10_skip_suppression (c : String) (a : Article) (out : Nat → AttemptOutcome)
    (fb : Bool) (db : List Row) (s : Nat)
    (hc : c ≠ "") (hskip : should_skip a = true) :
    send_article c a out fb =
      { ok := true, waits := [], attempts := 0, fallbackAttempted := false } ∧
    send_pending_step db a (send_article c a out fb).ok s = (mark_sent db a, s + 1) ∧
    (∀ r ∈ mark_sent db a, r.id = a.id → r.sent = true) := by
  have h1 : send_article c a out fb =
      { ok := true, waits := [], attempts := 0, fallbackAttempted := false } := by
    rw [send_article, if_neg hc, if_pos hskip]
  refine ⟨h1, ?_, ?_⟩
  · rw [h1]
    rfl
  · intro r hr hid
    obtain ⟨x, hx, hxr⟩ := List.mem_map.mp hr
    by_cases hxid : x.id = a.id
    · rw [← hxr, if_pos hxid]
    · rw [← hxr, if_neg hxid] at hid
      exact absurd hid hxid

/-- C10 witness: the promo article is "sent" (suppressed) without any
delivery attempt, and the orchestrator marks it sent and counts it. -/
theorem C10_witness :
    send_article "chan" samplePromo (fun _ => AttemptOutcome.tgError) false =
      { ok := true, waits := [], attempts := 0, fallbackAttempted := false } ∧
    send_pending_step [sampleOldRow] samplePromo
      (send_article "chan" samplePromo (fun _ => AttemptOutcome.tgError) false).ok 0 =
      (mark_sent [sampleOldRow] samplePromo, 1) :=
  ⟨(C10_skip_suppression "chan" samplePromo (fun _ => AttemptOutcome.tgError) false
      [sampleOldRow] 0 (by decide) (by decide)).1,
   (C10_skip_suppression "chan" samplePromo (fun _ => AttemptOutcome.tgError) false
      [sampleOldRow] 0 (by decide) (by decide)).2.1⟩

end NewsAgg
